import Mathlib

/-!
Shallow embedding of the macro-budget application (`src/unnamed/part_000`,
the current revision of `App.js`; `src/src/App.js` is the superseded legacy
revision that still stored `calories`).  Stored field values are strings;
numeric interpretation goes through a model of JavaScript `parseFloat`
(longest numeric prefix after optional whitespace and sign, with optional
fraction and exponent; `NaN` is modelled as `none`).
-/

/-- The seven weekday keys, in the declared order of the `DAYS` array. -/
inductive Day where
  | monday
  | tuesday
  | wednesday
  | thursday
  | friday
  | saturday
  | sunday
deriving DecidableEq, Fintype, Repr

/-- The `DAYS` array: Monday through Sunday, in declaration order. -/
def DAYS : List Day :=
  [Day.monday, Day.tuesday, Day.wednesday, Day.thursday, Day.friday,
   Day.saturday, Day.sunday]

/-- Weekday names as used for object keys and notification tags. -/
def dayName : Day → String
  | Day.monday => "Monday"
  | Day.tuesday => "Tuesday"
  | Day.wednesday => "Wednesday"
  | Day.thursday => "Thursday"
  | Day.friday => "Friday"
  | Day.saturday => "Saturday"
  | Day.sunday => "Sunday"

/-- The four numeric fields of a `DayEntry`. -/
inductive FieldName where
  | calories
  | carbs
  | protein
  | fat
deriving DecidableEq, Fintype, Repr

/-- The three editable fields of the `DailyBudget` (calories is derived,
not stored, in the current revision). -/
inductive BField where
  | carbs
  | protein
  | fat
deriving DecidableEq, Fintype, Repr

/-- The daily budget record: three macro quantities stored as text. -/
structure DailyBudget where
  carbs : String
  protein : String
  fat : String
deriving DecidableEq, Repr

/-- One day's logged intake: four quantities stored as text. -/
structure DayEntry where
  calories : String
  carbs : String
  protein : String
  fat : String
deriving DecidableEq, Repr

/-- FieldName lookup `entry[field]` on a `DayEntry`. -/
def DayEntry.get (e : DayEntry) : FieldName → String
  | FieldName.calories => e.calories
  | FieldName.carbs => e.carbs
  | FieldName.protein => e.protein
  | FieldName.fat => e.fat

/-- FieldName lookup on the `DailyBudget`. -/
def DailyBudget.get (b : DailyBudget) : BField → String
  | BField.carbs => b.carbs
  | BField.protein => b.protein
  | BField.fat => b.fat

/-- FieldName update `{...b, [field]: v}` on the `DailyBudget`. -/
def DailyBudget.set (b : DailyBudget) (f : BField) (v : String) : DailyBudget :=
  match f with
  | BField.carbs => { b with carbs := v }
  | BField.protein => { b with protein := v }
  | BField.fat => { b with fat := v }

/-- FieldName update `{...e, [field]: v}` on a `DayEntry`. -/
def DayEntry.set (e : DayEntry) (f : FieldName) (v : String) : DayEntry :=
  match f with
  | FieldName.calories => { e with calories := v }
  | FieldName.carbs => { e with carbs := v }
  | FieldName.protein => { e with protein := v }
  | FieldName.fat => { e with fat := v }

/-- The weekly entries object: one `DayEntry` under each of the seven keys. -/
def WeeklyEntries := Day → DayEntry

/-- A record of one rational per field, used for weekly budget, totals and
remaining. -/
structure Macros where
  calories : ℚ
  carbs : ℚ
  protein : ℚ
  fat : ℚ
deriving DecidableEq, Repr

/-- FieldName lookup on a `Macros` record. -/
def Macros.get (m : Macros) : FieldName → ℚ
  | FieldName.calories => m.calories
  | FieldName.carbs => m.carbs
  | FieldName.protein => m.protein
  | FieldName.fat => m.fat

/-! ### A model of JavaScript `parseFloat` -/

/-- JavaScript string whitespace (the common characters; `parseFloat` skips
leading whitespace). -/
def isSpaceChar (c : Char) : Bool :=
  c = ' ' || c = '\t' || c = '\n' || c = '\r'

/-- Value of a list of ASCII digit characters read in base 10. -/
def digitsToNat (ds : List Char) : Nat :=
  ds.foldl (fun a c => 10 * a + (c.toNat - 48)) 0

/-- Consume an optional leading sign; returns (isNegative, rest). -/
def splitSign (cs : List Char) : Bool × List Char :=
  match cs with
  | [] => (false, [])
  | c :: rest =>
    if c = '-' then (true, rest)
    else if c = '+' then (false, rest)
    else (false, c :: rest)

/-- Read an optional exponent marker `e`/`E`, sign and digits; the exponent
only counts when at least one digit follows the marker (as in `parseFloat`,
which takes the longest valid numeric prefix: `"12e"` parses as `12`). -/
def parseExp (cs : List Char) : Int :=
  match cs with
  | [] => 0
  | c :: rest =>
    if c = 'e' ∨ c = 'E' then
      let sp := splitSign rest
      let eds := sp.2.takeWhile Char.isDigit
      if eds = [] then 0
      else if sp.1 then -(digitsToNat eds : Int) else (digitsToNat eds : Int)
    else 0

/-- The syntactic decomposition step of `parseFloat`: skip leading
whitespace, read an optional sign, integer digits, an optional `.` with
fraction digits, and an optional exponent; `none` when no digit is found
(JavaScript `NaN`). -/
structure NumParts where
  neg : Bool
  intDigits : List Char
  fracDigits : List Char
  exp : Int
deriving DecidableEq, Repr

/-- Syntactic part of the `parseFloat` model. -/
def parseParts (s : String) : Option NumParts :=
  let cs := s.data.dropWhile isSpaceChar
  let sp := splitSign cs
  let ids := sp.2.takeWhile Char.isDigit
  let rest := sp.2.dropWhile Char.isDigit
  let fp : List Char × List Char :=
    match rest with
    | '.' :: r => (r.takeWhile Char.isDigit, r.dropWhile Char.isDigit)
    | _ => ([], rest)
  if ids = [] ∧ fp.1 = [] then none
  else some ⟨sp.1, ids, fp.1, parseExp fp.2⟩

/-- Exact rational value of a syntactic decomposition. -/
def partsValue (p : NumParts) : ℚ :=
  let mant : ℚ :=
    (digitsToNat p.intDigits : ℚ) + (digitsToNat p.fracDigits : ℚ) / (10 : ℚ) ^ p.fracDigits.length
  (if p.neg then -mant else mant) * (10 : ℚ) ^ p.exp

/-- Model of JavaScript `parseFloat` on stored field text: `none` is `NaN`,
`some q` is the exact value of the longest numeric prefix. -/
def parseFloat (s : String) : Option ℚ :=
  (parseParts s).map partsValue

/-- Fallback parse `parseFloat(s) || 0`: unparsable (`NaN`) input degrades to `0`. -/
def parseOrZero (s : String) : ℚ :=
  (parseFloat s).getD 0

/-! ### Budget Engine -/

/-- Source function `calculateCalories`: 4 kcal per gram of carbs and protein, 9 per gram
of fat; each argument is best-effort parsed with fallback 0
(`parseFloat(x) || 0`). -/
def calculateCalories (carbs protein fat : String) : ℚ :=
  parseOrZero carbs * 4 + parseOrZero protein * 4 + parseOrZero fat * 9

/-- The `DEFAULT_DAILY_BUDGET` constant of the current revision. -/
def DEFAULT_DAILY_BUDGET : DailyBudget :=
  { carbs := "270", protein := "110", fat := "65" }

/-- The weekly budget computed at the top of `calculateRemaining`:
each macro is `parseFloat(dailyBudget[f]) * 7 || 0` and calories is the
derived daily calories times 7. -/
def weeklyBudget (b : DailyBudget) : Macros where
  calories := calculateCalories b.carbs b.protein b.fat * 7
  carbs := (match parseFloat b.carbs with | some v => v * 7 | none => 0)
  protein := (match parseFloat b.protein with | some v => v * 7 | none => 0)
  fat := (match parseFloat b.fat with | some v => v * 7 | none => 0)

/-- The branch test of the aggregation loop in `calculateRemaining`:
`!isNaN(value) && value > 0` for `value = parseFloat(entry[field])`. -/
def dayContributes (w : WeeklyEntries) (f : FieldName) (d : Day) : Bool :=
  match parseFloat ((w d).get f) with
  | some v => decide (0 < v)
  | none => false

/-- The `totals[field]` accumulation of `calculateRemaining`: fold over the
seven days, adding the parsed value when it parses and is strictly
positive. -/
def totalsField (w : WeeklyEntries) (f : FieldName) : ℚ :=
  DAYS.foldl
    (fun acc d =>
      match parseFloat ((w d).get f) with
      | some v => if 0 < v then acc + v else acc
      | none => acc)
    0

/-- The `emptyFields[field]` accumulation of `calculateRemaining`: the days
pushed in loop order because their value does not parse to a strictly
positive number. -/
def emptyDaysField (w : WeeklyEntries) (f : FieldName) : List Day :=
  DAYS.foldl
    (fun acc d =>
      match parseFloat ((w d).get f) with
      | some v => if 0 < v then acc else acc ++ [d]
      | none => acc ++ [d])
    []

/-- The `remaining` record of `calculateRemaining`: weekly budget minus
totals, per field. -/
def remainingOf (b : DailyBudget) (w : WeeklyEntries) : Macros where
  calories := (weeklyBudget b).calories - totalsField w FieldName.calories
  carbs := (weeklyBudget b).carbs - totalsField w FieldName.carbs
  protein := (weeklyBudget b).protein - totalsField w FieldName.protein
  fat := (weeklyBudget b).fat - totalsField w FieldName.fat

/-- JavaScript `Math.round`: round half toward positive infinity,
`⌊q + 1/2⌋`. -/
def jsRound (q : ℚ) : ℤ :=
  ⌊q + 1 / 2⌋

/-- Closure `getPlaceholder` from `calculateRemaining`: 0 when no day is empty for
the field, otherwise `Math.round(remaining[field] / emptyCount)`. -/
def getPlaceholder (remaining : Macros) (emptyFields : FieldName → List Day)
    (f : FieldName) : ℤ :=
  let emptyCount := (emptyFields f).length
  if emptyCount = 0 then 0
  else jsRound (remaining.get f / (emptyCount : ℚ))

/-- Closure `isEmptyField` from `calculateRemaining`:
`isNaN(parseFloat(v)) || parseFloat(v) === 0`. -/
def isEmptyField (w : WeeklyEntries) (d : Day) (f : FieldName) : Bool :=
  match parseFloat ((w d).get f) with
  | none => true
  | some v => decide (v = 0)

/-! ### Reminder scheduler (check-and-notify) -/

/-- Source function `isDayFilled`: the day has at least one field parsing to a strictly
positive number (`parseFloat(x) > 0` is false for `NaN`). -/
def isDayFilled (e : DayEntry) : Bool :=
  (match parseFloat e.calories with | some v => decide (0 < v) | none => false) ||
  (match parseFloat e.carbs with | some v => decide (0 < v) | none => false) ||
  (match parseFloat e.protein with | some v => decide (0 < v) | none => false) ||
  (match parseFloat e.fat with | some v => decide (0 < v) | none => false)

/-- The notification payload passed to `new Notification(title, options)`. -/
structure Reminder where
  title : String
  body : String
  tag : String
deriving DecidableEq, Repr

/-- The `checkAndNotify` closure of `scheduleDailyReminder`: look up the
current weekday's entry (`undefined` is `none`); raise the tagged
notification exactly when the entry exists and is not filled. -/
def checkAndNotify (entries : Day → Option DayEntry) (currentDay : Day) :
    Option Reminder :=
  match entries currentDay with
  | none => none
  | some e =>
    if isDayFilled e then none
    else
      some { title := "Macros Reminder"
           , body := "Don\x27t forget to fill in your macros for " ++ dayName currentDay ++ "!"
           , tag := "macro-reminder-" ++ dayName currentDay }

/-! ### Input validation gate and mutation handlers -/

/-- The guard shared by `handleDailyBudgetChange` and
`handleWeeklyEntryChange`: `value === "" || /^\d+$/.test(value)`, i.e. the
empty string or one or more ASCII digits. -/
def acceptInput (value : String) : Bool :=
  value == "" || (!value.isEmpty && value.data.all Char.isDigit)

/-- A stored field value the gate can produce: empty, or one or more ASCII
digits. -/
def digitField (v : String) : Prop :=
  v = "" ∨ (v ≠ "" ∧ ∀ c ∈ v.data, c.isDigit = true)

instance digitField_decidable (v : String) : Decidable (digitField v) := by
  unfold digitField
  infer_instance

/-- Handler `handleDailyBudgetChange`: update the field only when the gate accepts
the raw text; otherwise the state is untouched. -/
def handleDailyBudgetChange (b : DailyBudget) (f : BField) (value : String) :
    DailyBudget :=
  if acceptInput value then b.set f value else b

/-- Handler `handleWeeklyEntryChange`: update one field of one day only when the
gate accepts the raw text; otherwise the state is untouched. -/
def handleWeeklyEntryChange (w : WeeklyEntries) (d : Day) (f : FieldName)
    (value : String) : WeeklyEntries :=
  if acceptInput value then
    fun d' => if d' = d then (w d).set f value else w d'
  else w

/-- The all-empty `DayEntry` used for fresh and cleared weeks. -/
def emptyDayEntry : DayEntry :=
  { calories := "", carbs := "", protein := "", fat := "" }

/-- The reset week built by `handleClearAll` and
`getInitialWeeklyEntries`: every day maps to the all-empty entry. -/
def emptyWeeklyEntries : WeeklyEntries :=
  fun _ => emptyDayEntry

/-- The in-memory application state: the two React state records. -/
structure AppState where
  dailyBudget : DailyBudget
  weeklyEntries : WeeklyEntries

/-- Handler `handleClearAll`: reset the budget to `DEFAULT_DAILY_BUDGET` and every
day to the empty entry (the localStorage removals do not touch the
in-memory state). -/
def handleClearAll (_s : AppState) : AppState :=
  { dailyBudget := DEFAULT_DAILY_BUDGET, weeklyEntries := emptyWeeklyEntries }

/-- The state on first run: default budget, empty week (what
`getInitialDailyBudget` / `getInitialWeeklyEntries` produce with nothing
persisted). -/
def initState : AppState :=
  { dailyBudget := DEFAULT_DAILY_BUDGET, weeklyEntries := emptyWeeklyEntries }

/-- States reachable from the default state through the three mutation
operations. -/
inductive Reachable : AppState → Prop where
  | init : Reachable initState
  | budgetChange (s : AppState) (f : BField) (v : String) :
      Reachable s →
      Reachable { s with dailyBudget := handleDailyBudgetChange s.dailyBudget f v }
  | entryChange (s : AppState) (d : Day) (f : FieldName) (v : String) :
      Reachable s →
      Reachable { s with weeklyEntries := handleWeeklyEntryChange s.weeklyEntries d f v }
  | clearAll (s : AppState) :
      Reachable s →
      Reachable (handleClearAll s)

/-- Every stored field of a state is empty or all ASCII digits. -/
def stateValid (s : AppState) : Prop :=
  (∀ f : BField, digitField (s.dailyBudget.get f)) ∧
  (∀ (d : Day) (f : FieldName), digitField ((s.weeklyEntries d).get f))

/-! ### Load-time migration of the persisted daily budget -/

/-- A persisted `macroDailyBudget` record as the current revision may find
it in localStorage: possibly still carrying the legacy independent
`calories` field. -/
structure StoredBudget where
  calories : Option String
  carbs : String
  protein : String
  fat : String
deriving DecidableEq, Repr

/-- Loader `getInitialDailyBudget` of the current revision: destructure the saved
record, drop `calories`, keep the rest; fall back to the default budget
when nothing is saved. -/
def getInitialDailyBudget (saved : Option StoredBudget) : DailyBudget :=
  match saved with
  | some s => { carbs := s.carbs, protein := s.protein, fat := s.fat }
  | none => DEFAULT_DAILY_BUDGET

/-! ### Spec-side rounding conventions (for comparison with `Math.round`) -/

/-- Modelled from the spec: "standard round-half-away-from-zero". -/
def roundHalfAwayFromZero (q : ℚ) : ℤ :=
  if 0 ≤ q then ⌊q + 1 / 2⌋ else -⌊-q + 1 / 2⌋

/-- Modelled from the spec: "round-half-to-even" (ties go to the even
neighbour, all other values to the nearest integer). -/
def roundHalfToEven (q : ℚ) : ℤ :=
  if q - (⌊q⌋ : ℚ) = 1 / 2 then (if 2 ∣ ⌊q⌋ then ⌊q⌋ else ⌊q⌋ + 1)
  else ⌊q + 1 / 2⌋

/-- A remaining record reaching a half-integer negative quotient. -/
def cexRemaining : Macros :=
  { calories := 0, carbs := -7, protein := 0, fat := 0 }

/-- An emptyDays record with two empty days for every field. -/
def cexEmptyDays : FieldName → List Day :=
  fun _ => [Day.saturday, Day.sunday]

/-- A week whose Monday calories hold a stored negative value. -/
def negEntryWeek : WeeklyEntries :=
  fun _ => { calories := "-5", carbs := "", protein := "", fat := "" }

/-! ### Helper lemmas about the parse model -/

theorem digitsToNat_nil : digitsToNat [] = 0 := rfl

theorem isDigit_ne {c x : Char} (h : c.isDigit = true) (hx : x.isDigit = false) :
    c ≠ x := by
  rintro rfl
  rw [h] at hx
  cases hx

theorem isDigit_not_space {c : Char} (h : c.isDigit = true) :
    isSpaceChar c = false := by
  have h1 := isDigit_ne h (show Char.isDigit ' ' = false by decide)
  have h2 := isDigit_ne h (show Char.isDigit '\t' = false by decide)
  have h3 := isDigit_ne h (show Char.isDigit '\n' = false by decide)
  have h4 := isDigit_ne h (show Char.isDigit '\r' = false by decide)
  simp [isSpaceChar, h1, h2, h3, h4]

/-- A nonempty all-digit string decomposes with no sign, no fraction and no
exponent. -/
theorem parseParts_digitList (ds : List Char) (h1 : ds ≠ [])
    (h2 : ∀ c ∈ ds, c.isDigit = true) :
    parseParts (String.mk ds) = some ⟨false, ds, [], 0⟩ := by
  obtain ⟨c, rest, rfl⟩ : ∃ c rest, ds = c :: rest := by
    cases ds with
    | nil => exact absurd rfl h1
    | cons c rest => exact ⟨c, rest, rfl⟩
  have hc : c.isDigit = true := h2 c (by simp)
  have hminus := isDigit_ne hc (show Char.isDigit '-' = false by decide)
  have hplus := isDigit_ne hc (show Char.isDigit '+' = false by decide)
  have htake : List.takeWhile Char.isDigit (c :: rest) = c :: rest :=
    List.takeWhile_eq_self_iff.mpr h2
  have hdrop : List.dropWhile Char.isDigit (c :: rest) = [] :=
    List.dropWhile_eq_nil_iff.mpr h2
  rw [parseParts]
  simp only [String.data]
  rw [List.dropWhile_cons, isDigit_not_space hc]
  simp only [Bool.false_eq_true, if_false, splitSign, if_neg hminus, if_neg hplus]
  rw [htake, hdrop]
  simp [parseExp]

theorem partsValue_intParts (neg : Bool) (ids : List Char) :
    partsValue ⟨neg, ids, [], 0⟩ =
      if neg then -(digitsToNat ids : ℚ) else (digitsToNat ids : ℚ) := by
  cases neg <;> simp [partsValue, digitsToNat_nil]

/-- A nonempty all-digit string parses to its base-10 value. -/
theorem parseFloat_digitString (ds : List Char) (h1 : ds ≠ [])
    (h2 : ∀ c ∈ ds, c.isDigit = true) :
    parseFloat (String.mk ds) = some (digitsToNat ds : ℚ) := by
  rw [parseFloat, parseParts_digitList ds h1 h2]
  simp [partsValue_intParts]

/-! ### Helper lemmas about the aggregation loop -/

theorem dayContributes_iff (w : WeeklyEntries) (f : FieldName) (d : Day) :
    dayContributes w f d = true ↔
      ∃ v, parseFloat ((w d).get f) = some v ∧ 0 < v := by
  rw [dayContributes]
  rcases h : parseFloat ((w d).get f) with _ | v <;> simp [h]

theorem totals_step (w : WeeklyEntries) (f : FieldName) (acc : ℚ) (d : Day) :
    (match parseFloat ((w d).get f) with
      | some v => if 0 < v then acc + v else acc
      | none => acc) =
    if dayContributes w f d then acc + parseOrZero ((w d).get f) else acc := by
  rcases h : parseFloat ((w d).get f) with _ | v
  · simp [dayContributes, h]
  · by_cases hv : 0 < v <;> simp [dayContributes, parseOrZero, h, hv]

theorem totals_foldl (w : WeeklyEntries) (f : FieldName) (l : List Day) (acc : ℚ) :
    List.foldl
      (fun acc d =>
        match parseFloat ((w d).get f) with
        | some v => if 0 < v then acc + v else acc
        | none => acc)
      acc l
    = acc + ((l.filter (fun d => dayContributes w f d)).map
        (fun d => parseOrZero ((w d).get f))).sum := by
  induction l generalizing acc with
  | nil => simp
  | cons d l ih =>
    rw [List.foldl_cons, totals_step, List.filter_cons]
    by_cases hd : dayContributes w f d = true
    · simp only [hd, if_true, ih, List.map_cons, List.sum_cons]
      ring
    · simp [hd, ih]

theorem empty_step (w : WeeklyEntries) (f : FieldName) (acc : List Day) (d : Day) :
    (match parseFloat ((w d).get f) with
      | some v => if 0 < v then acc else acc ++ [d]
      | none => acc ++ [d]) =
    if dayContributes w f d then acc else acc ++ [d] := by
  rcases h : parseFloat ((w d).get f) with _ | v
  · simp [dayContributes, h]
  · by_cases hv : 0 < v <;> simp [dayContributes, h, hv]

theorem empty_foldl (w : WeeklyEntries) (f : FieldName) (l : List Day)
    (acc : List Day) :
    List.foldl
      (fun acc d =>
        match parseFloat ((w d).get f) with
        | some v => if 0 < v then acc else acc ++ [d]
        | none => acc ++ [d])
      acc l
    = acc ++ l.filter (fun d => !dayContributes w f d) := by
  induction l generalizing acc with
  | nil => simp
  | cons d l ih =>
    rw [List.foldl_cons, empty_step, List.filter_cons]
    by_cases hd : dayContributes w f d = true
    · simp [hd, ih]
    · simp [hd, ih]

theorem totalsField_eq (w : WeeklyEntries) (f : FieldName) :
    totalsField w f =
      ((DAYS.filter (fun d => dayContributes w f d)).map
        (fun d => parseOrZero ((w d).get f))).sum := by
  rw [totalsField, totals_foldl]
  simp

theorem emptyDaysField_eq (w : WeeklyEntries) (f : FieldName) :
    emptyDaysField w f = DAYS.filter (fun d => !dayContributes w f d) := by
  rw [emptyDaysField, empty_foldl]
  simp

theorem mem_DAYS (d : Day) : d ∈ DAYS := by
  cases d <;> simp [DAYS]

theorem mem_emptyDaysField (w : WeeklyEntries) (f : FieldName) (d : Day) :
    d ∈ emptyDaysField w f ↔ dayContributes w f d = false := by
  rw [emptyDaysField_eq]
  simp [List.mem_filter, mem_DAYS d]

/-! ### Helper lemmas about the input gate and stored fields -/

theorem acceptInput_iff (v : String) : acceptInput v = true ↔ digitField v := by
  rw [acceptInput, digitField]
  rcases eq_or_ne v "" with rfl | hne
  · simp
  · have hdata : v.data ≠ [] := by
      intro h
      exact hne (by cases v; simp_all)
    have hemp : v.isEmpty = false := by
      rcases h : v.isEmpty with _ | _
      · rfl
      · exact absurd ((String.isEmpty_iff v).mp h) hne
    simp [hne, hemp, List.all_eq_true]

theorem digitField_parses (v : String) (h : digitField v) (hne : v ≠ "") :
    ∃ n : ℕ, parseFloat v = some (n : ℚ) := by
  rcases h with rfl | ⟨-, hall⟩
  · exact absurd rfl hne
  · have hdata : v.data ≠ [] := by
      intro h
      exact hne (by cases v; simp_all)
    refine ⟨digitsToNat v.data, ?_⟩
    have := parseFloat_digitString v.data hdata hall
    cases v
    exact this

theorem budget_get_set (b : DailyBudget) (f f' : BField) (v : String) :
    (b.set f v).get f' = if f' = f then v else b.get f' := by
  cases f <;> cases f' <;> simp [DailyBudget.set, DailyBudget.get]

theorem entry_get_set (e : DayEntry) (f f' : FieldName) (v : String) :
    (e.set f v).get f' = if f' = f then v else e.get f' := by
  cases f <;> cases f' <;> simp [DayEntry.set, DayEntry.get]

theorem stateValid_init : stateValid initState := by
  constructor
  · intro f
    cases f <;> decide
  · intro d f
    have h : (initState.weeklyEntries d).get f = "" := by cases f <;> rfl
    rw [h]
    decide

theorem stateValid_budgetChange (b : DailyBudget) (f : BField) (v : String)
    (hb : ∀ f' : BField, digitField (b.get f')) :
    ∀ f' : BField, digitField ((handleDailyBudgetChange b f v).get f') := by
  intro f'
  rw [handleDailyBudgetChange]
  by_cases hacc : acceptInput v = true
  · rw [if_pos hacc, budget_get_set]
    by_cases hf : f' = f
    · rw [if_pos hf]
      exact (acceptInput_iff v).mp hacc
    · rw [if_neg hf]
      exact hb f'
  · simp only [Bool.not_eq_true] at hacc
    rw [hacc]
    simp only [Bool.false_eq_true, if_false]
    exact hb f'

theorem stateValid_entryChange (w : WeeklyEntries) (d : Day) (f : FieldName)
    (v : String) (hw : ∀ (d' : Day) (f' : FieldName), digitField ((w d').get f')) :
    ∀ (d' : Day) (f' : FieldName),
      digitField ((handleWeeklyEntryChange w d f v d').get f') := by
  intro d' f'
  rw [handleWeeklyEntryChange]
  by_cases hacc : acceptInput v = true
  · rw [if_pos hacc]
    by_cases hd : d' = d
    · rw [if_pos hd, entry_get_set]
      by_cases hf : f' = f
      · rw [if_pos hf]
        exact (acceptInput_iff v).mp hacc
      · rw [if_neg hf]
        exact hw d f'
    · rw [if_neg hd]
      exact hw d' f'
  · simp only [Bool.not_eq_true] at hacc
    rw [hacc]
    simp only [Bool.false_eq_true, if_false]
    exact hw d' f'

theorem stateValid_reachable (s : AppState) (h : Reachable s) : stateValid s := by
  induction h with
  | init => exact stateValid_init
  | budgetChange s f v _ ih =>
    exact ⟨stateValid_budgetChange s.dailyBudget f v ih.1, ih.2⟩
  | entryChange s d f v _ ih =>
    exact ⟨ih.1, stateValid_entryChange s.weeklyEntries d f v ih.2⟩
  | clearAll s _ _ =>
    exact stateValid_init

/-! ### Concrete parse evaluations -/

theorem parseFloat_of_parts {s : String} {p : NumParts}
    (h : parseParts s = some p) : parseFloat s = some (partsValue p) := by
  rw [parseFloat, h]
  rfl

theorem parseFloat_digitLit {s : String} {ds : List Char} {n : ℕ}
    (h : parseParts s = some ⟨false, ds, [], 0⟩) (hn : digitsToNat ds = n) :
    parseFloat s = some (n : ℚ) := by
  rw [parseFloat_of_parts h, partsValue_intParts]
  simp [hn]

theorem parseFloat_negDigitLit {s : String} {ds : List Char} {n : ℕ}
    (h : parseParts s = some ⟨true, ds, [], 0⟩) (hn : digitsToNat ds = n) :
    parseFloat s = some (-(n : ℚ)) := by
  rw [parseFloat_of_parts h, partsValue_intParts]
  simp [hn]

theorem parseFloat_val_270 : parseFloat "270" = some 270 := by
  have h := @parseFloat_digitLit "270" ['2', '7', '0'] 270 (by decide) (by decide)
  simpa using h

theorem parseFloat_val_110 : parseFloat "110" = some 110 := by
  have h := @parseFloat_digitLit "110" ['1', '1', '0'] 110 (by decide) (by decide)
  simpa using h

theorem parseFloat_val_65 : parseFloat "65" = some 65 := by
  have h := @parseFloat_digitLit "65" ['6', '5'] 65 (by decide) (by decide)
  simpa using h

theorem parseFloat_val_0 : parseFloat "0" = some 0 := by
  have h := @parseFloat_digitLit "0" ['0'] 0 (by decide) (by decide)
  simpa using h

theorem parseFloat_val_30 : parseFloat "30" = some 30 := by
  have h := @parseFloat_digitLit "30" ['3', '0'] 30 (by decide) (by decide)
  simpa using h

theorem parseFloat_val_40 : parseFloat "40" = some 40 := by
  have h := @parseFloat_digitLit "40" ['4', '0'] 40 (by decide) (by decide)
  simpa using h

theorem parseFloat_val_10 : parseFloat "10" = some 10 := by
  have h := @parseFloat_digitLit "10" ['1', '0'] 10 (by decide) (by decide)
  simpa using h

theorem parseFloat_val_neg5 : parseFloat "-5" = some (-5) := by
  have h := @parseFloat_negDigitLit "-5" ['5'] 5 (by decide) (by decide)
  simpa using h

/-- C1 counterexample: `Math.round` rounds half toward positive infinity,
which matches neither round-half-away-from-zero nor round-half-to-even on
all inputs: at quotient `-7/2` the code returns `-3` while either
convention returns `-4`. -/
theorem getPlaceholder_convention_counterexample :
    ¬ ((∀ (r : Macros) (e : FieldName → List Day) (f : FieldName),
          (e f).length ≠ 0 →
          getPlaceholder r e f =
            roundHalfAwayFromZero (r.get f / ((e f).length : ℚ))) ∨
       (∀ (r : Macros) (e : FieldName → List Day) (f : FieldName),
          (e f).length ≠ 0 →
          getPlaceholder r e f =
            roundHalfToEven (r.get f / ((e f).length : ℚ)))) := by
  have hval : getPlaceholder cexRemaining cexEmptyDays FieldName.carbs = -3 := by
    rw [getPlaceholder]
    norm_num [cexRemaining, cexEmptyDays, Macros.get, jsRound]
  intro h
  rcases h with h | h
  · have hc := h cexRemaining cexEmptyDays FieldName.carbs (by decide)
    rw [hval] at hc
    norm_num [cexRemaining, cexEmptyDays, Macros.get, roundHalfAwayFromZero] at hc
  · have hc := h cexRemaining cexEmptyDays FieldName.carbs (by decide)
    rw [hval] at hc
    norm_num [cexRemaining, cexEmptyDays, Macros.get, roundHalfToEven] at hc

/-- C1 (amended): for every remaining record and emptyDays record, the
placeholder is 0 when `emptyDays[field]` is empty, and otherwise it is
`remaining[field] / emptyDays[field].length` rounded half toward positive
infinity (the `Math.round` convention: the unique integer within a
half-open unit window around the quotient); in particular with
`remaining.carbs = 1590` and six empty days the carbs placeholder is
265. -/
theorem getPlaceholder_spec (r : Macros) (e : FieldName → List Day)
    (f : FieldName) :
    ((e f).length = 0 → getPlaceholder r e f = 0) ∧
    ((e f).length ≠ 0 →
      ((getPlaceholder r e f : ℚ) - 1 / 2 ≤ r.get f / ((e f).length : ℚ) ∧
       r.get f / ((e f).length : ℚ) < (getPlaceholder r e f : ℚ) + 1 / 2)) ∧
    (r.get f = 1590 → (e f).length = 6 → getPlaceholder r e f = 265) := by
  refine ⟨fun h => by rw [getPlaceholder]; simp [h], fun h => ?_, fun hr hl => ?_⟩
  · rw [getPlaceholder, if_neg h]
    set q : ℚ := r.get f / ((e f).length : ℚ) with hq
    constructor
    · have hfl : (jsRound q : ℚ) ≤ q + 1 / 2 := by
        rw [jsRound]
        exact Int.floor_le (q + 1 / 2)
      linarith
    · have hfl : q + 1 / 2 < (jsRound q : ℚ) + 1 := by
        rw [jsRound]
        exact Int.lt_floor_add_one (q + 1 / 2)
      linarith
  · rw [getPlaceholder, if_neg (by rw [hl]; decide), hr, hl, jsRound]
    norm_num

/-- Witness for the amended C1 at remaining.carbs = 1590 with six empty
days: the placeholder is 265 and sits within the half-unit window around
1590/6. -/
theorem getPlaceholder_spec_witness :
    getPlaceholder { calories := 0, carbs := 1590, protein := 0, fat := 0 }
      (fun _ => [Day.monday, Day.tuesday, Day.wednesday, Day.thursday,
                 Day.friday, Day.saturday])
      FieldName.carbs = 265 :=
  (getPlaceholder_spec
    { calories := 0, carbs := 1590, protein := 0, fat := 0 }
    (fun _ => [Day.monday, Day.tuesday, Day.wednesday, Day.thursday,
               Day.friday, Day.saturday])
    FieldName.carbs).2.2 rfl rfl

/-- C2: for each field independently, `aggregate` sums into the total
exactly the parsed values of the days whose field parses strictly
positive, while every other day lands in that field's `emptyDays` list in
the Monday-to-Sunday order of `DAYS`; the two sets of days are
complementary and exhaustive. -/
theorem aggregate_spec (w : WeeklyEntries) (f : FieldName) :
    (totalsField w f =
      ((DAYS.filter (fun d => dayContributes w f d)).map
        (fun d => parseOrZero ((w d).get f))).sum) ∧
    (∀ d : Day, dayContributes w f d = true ↔
      ∃ v, parseFloat ((w d).get f) = some v ∧ 0 < v) ∧
    (emptyDaysField w f = DAYS.filter (fun d => !dayContributes w f d)) ∧
    List.Sublist (emptyDaysField w f) DAYS ∧
    (∀ d : Day, d ∈ DAYS) ∧
    (∀ d : Day,
      (d ∈ emptyDaysField w f ∧ dayContributes w f d = false) ∨
      (d ∉ emptyDaysField w f ∧ dayContributes w f d = true)) := by
  refine ⟨totalsField_eq w f, fun d => dayContributes_iff w f d,
    emptyDaysField_eq w f, ?_, mem_DAYS, ?_⟩
  · rw [emptyDaysField_eq]
    exact List.filter_sublist DAYS
  · intro d
    by_cases hd : dayContributes w f d = true
    · right
      refine ⟨?_, hd⟩
      rw [mem_emptyDaysField, hd]
      simp
    · left
      rw [Bool.not_eq_true] at hd
      exact ⟨(mem_emptyDaysField w f d).mpr hd, hd⟩

/-- C3: derived calories are `4*carbs + 4*protein + 9*fat` with parse
fallback 0, and the weekly budget is the daily quantity times 7 per field
with calories derived; in particular the default budget gives 2105 daily
and 14735 weekly calories. -/
theorem calories_weeklyBudget_spec :
    (∀ c p f : String, calculateCalories c p f =
      4 * parseOrZero c + 4 * parseOrZero p + 9 * parseOrZero f) ∧
    (∀ b : DailyBudget,
      (weeklyBudget b).carbs = 7 * parseOrZero b.carbs ∧
      (weeklyBudget b).protein = 7 * parseOrZero b.protein ∧
      (weeklyBudget b).fat = 7 * parseOrZero b.fat ∧
      (weeklyBudget b).calories =
        7 * calculateCalories b.carbs b.protein b.fat) ∧
    calculateCalories "270" "110" "65" = 2105 ∧
    (weeklyBudget DEFAULT_DAILY_BUDGET).calories = 14735 := by
  have hweekly : ∀ s : String,
      (match parseFloat s with | some v => v * 7 | none => 0) =
        7 * parseOrZero s := by
    intro s
    rcases h : parseFloat s with _ | v
    · simp [parseOrZero, h]
    · simp only [parseOrZero, h, Option.getD_some]
      ring
  have hcc : calculateCalories "270" "110" "65" = 2105 := by
    rw [calculateCalories, parseOrZero, parseOrZero, parseOrZero,
      parseFloat_val_270, parseFloat_val_110, parseFloat_val_65]
    norm_num
  refine ⟨fun c p f => by rw [calculateCalories]; ring,
    fun b => ⟨hweekly b.carbs, hweekly b.protein, hweekly b.fat,
      by rw [weeklyBudget]; ring⟩,
    hcc, ?_⟩
  show calculateCalories "270" "110" "65" * 7 = 14735
  rw [hcc]
  norm_num

/-- C4: remaining is weekly budget minus totals per field with no
clamping (over-budget totals give a negative remaining), and when no day
contributes for any field the remaining record equals the weekly
budget. -/
theorem remaining_spec :
    (∀ (b : DailyBudget) (w : WeeklyEntries) (f : FieldName),
      (remainingOf b w).get f = (weeklyBudget b).get f - totalsField w f) ∧
    (∀ (b : DailyBudget) (w : WeeklyEntries) (f : FieldName),
      (weeklyBudget b).get f < totalsField w f → (remainingOf b w).get f < 0) ∧
    (∀ (b : DailyBudget) (w : WeeklyEntries),
      (∀ (d : Day) (f : FieldName), dayContributes w f d = false) →
      remainingOf b w = weeklyBudget b) := by
  have hget : ∀ (b : DailyBudget) (w : WeeklyEntries) (f : FieldName),
      (remainingOf b w).get f = (weeklyBudget b).get f - totalsField w f := by
    intro b w f
    cases f <;> simp [remainingOf, Macros.get]
  refine ⟨hget, fun b w f hlt => ?_, fun b w h => ?_⟩
  · rw [hget]
    linarith
  · have ht : ∀ f : FieldName, totalsField w f = 0 := by
      intro f
      rw [totalsField_eq]
      have hnil : DAYS.filter (fun d => dayContributes w f d) = [] := by
        rw [List.filter_eq_nil_iff]
        intro d _
        simp [h d f]
      rw [hnil]
      rfl
    rw [remainingOf, ht, ht, ht, ht]
    simp

/-- Witness for C4: with the default budget and a fully empty week the
remaining record equals the weekly budget. -/
theorem remaining_spec_witness :
    remainingOf DEFAULT_DAILY_BUDGET emptyWeeklyEntries =
      weeklyBudget DEFAULT_DAILY_BUDGET :=
  remaining_spec.2.2 DEFAULT_DAILY_BUDGET emptyWeeklyEntries (by decide)

/-- C5: the input gate accepts exactly the empty string or a nonempty
all-ASCII-digit string, a rejected value leaves both the budget and the
weekly entries unchanged, and in particular "12.5" is rejected so a field
holding "10" keeps it. -/
theorem inputGate_spec :
    (∀ v : String, acceptInput v = true ↔
      (v = "" ∨ (v ≠ "" ∧ ∀ c ∈ v.data, c.isDigit = true))) ∧
    (∀ (b : DailyBudget) (f : BField) (v : String),
      acceptInput v = false → handleDailyBudgetChange b f v = b) ∧
    (∀ (w : WeeklyEntries) (d : Day) (f : FieldName) (v : String),
      acceptInput v = false → handleWeeklyEntryChange w d f v = w) ∧
    acceptInput "12.5" = false ∧
    (∀ (b : DailyBudget) (f : BField),
      b.get f = "10" → (handleDailyBudgetChange b f "12.5").get f = "10") := by
  have hrejB : ∀ (b : DailyBudget) (f : BField) (v : String),
      acceptInput v = false → handleDailyBudgetChange b f v = b := by
    intro b f v h
    rw [handleDailyBudgetChange, h]
    simp
  refine ⟨fun v => acceptInput_iff v, hrejB, ?_, by decide, ?_⟩
  · intro w d f v h
    rw [handleWeeklyEntryChange, h]
    simp
  · intro b f h
    rw [hrejB b f "12.5" (by decide)]
    exact h

/-- Witness for C5: submitting "12.5" to a budget field holding "10"
leaves it at "10". -/
theorem inputGate_spec_witness :
    (handleDailyBudgetChange { carbs := "10", protein := "110", fat := "65" }
      BField.carbs "12.5").get BField.carbs = "10" :=
  inputGate_spec.2.2.2.2 { carbs := "10", protein := "110", fat := "65" }
    BField.carbs rfl

/-- C6: `isEmptyField` is true exactly when the stored value is unparsable
or parses to 0; a stored negative value makes it false even though
`aggregate` puts that day in the field's emptyDays list. -/
theorem isEmptyField_spec :
    (∀ (w : WeeklyEntries) (d : Day) (f : FieldName),
      isEmptyField w d f = true ↔
        (parseFloat ((w d).get f) = none ∨ parseFloat ((w d).get f) = some 0)) ∧
    (∀ (w : WeeklyEntries) (d : Day) (f : FieldName) (v : ℚ),
      parseFloat ((w d).get f) = some v → v < 0 →
      isEmptyField w d f = false ∧ d ∈ emptyDaysField w f) := by
  constructor
  · intro w d f
    rw [isEmptyField]
    rcases h : parseFloat ((w d).get f) with _ | v <;> simp [h]
  · intro w d f v h hv
    constructor
    · rw [isEmptyField, h]
      simp only [decide_eq_false_iff_not]
      exact ne_of_lt hv
    · rw [mem_emptyDaysField, dayContributes, h]
      simp only [decide_eq_false_iff_not, not_lt]
      exact le_of_lt hv

/-- Witness for C6: the stored value "-5" parses negative, so
`isEmptyField` is false for it while the day still sits in the calories
emptyDays list. -/
theorem isEmptyField_spec_witness :
    isEmptyField negEntryWeek Day.monday FieldName.calories = false ∧
      Day.monday ∈ emptyDaysField negEntryWeek FieldName.calories :=
  isEmptyField_spec.2 negEntryWeek Day.monday FieldName.calories (-5)
    parseFloat_val_neg5 (by norm_num)

theorem posMatch_iff (s : String) :
    (match parseFloat s with | some v => decide (0 < v) | none => false) = true ↔
      ∃ v, parseFloat s = some v ∧ 0 < v := by
  rcases h : parseFloat s with _ | v <;> simp [h]

theorem isDayFilled_iff (e : DayEntry) :
    isDayFilled e = true ↔
      ∃ f : FieldName, ∃ v, parseFloat (e.get f) = some v ∧ 0 < v := by
  rw [isDayFilled]
  simp only [Bool.or_eq_true, posMatch_iff]
  constructor
  · rintro (((h | h) | h) | h)
    · exact ⟨FieldName.calories, h⟩
    · exact ⟨FieldName.carbs, h⟩
    · exact ⟨FieldName.protein, h⟩
    · exact ⟨FieldName.fat, h⟩
  · rintro ⟨f, hf⟩
    cases f
    · exact Or.inl (Or.inl (Or.inl hf))
    · exact Or.inl (Or.inl (Or.inr hf))
    · exact Or.inl (Or.inr hf)
    · exact Or.inr hf

/-- C7: the check-and-notify rule raises a notification exactly when the
current weekday's entry exists and is not filled, where filled means some
field parses strictly positive; the notification's tag determines the
weekday; and a day with calories "0" but positive macros is filled (no
notification) although `isEmptyField` flags its calories. -/
theorem checkAndNotify_spec :
    (∀ (entries : Day → Option DayEntry) (today : Day),
      (checkAndNotify entries today).isSome = true ↔
        ∃ e, entries today = some e ∧ isDayFilled e = false) ∧
    (∀ e : DayEntry, isDayFilled e = true ↔
      ∃ f : FieldName, ∃ v, parseFloat (e.get f) = some v ∧ 0 < v) ∧
    (∀ (entries : Day → Option DayEntry) (today : Day) (n : Reminder),
      checkAndNotify entries today = some n →
      n.tag = "macro-reminder-" ++ dayName today) ∧
    (∀ d₁ d₂ : Day,
      "macro-reminder-" ++ dayName d₁ = "macro-reminder-" ++ dayName d₂ →
      d₁ = d₂) ∧
    isDayFilled { calories := "0", carbs := "30", protein := "40", fat := "10" } = true ∧
    checkAndNotify
      (fun _ => some { calories := "0", carbs := "30", protein := "40", fat := "10" })
      Day.monday = none ∧
    isEmptyField
      (fun _ => { calories := "0", carbs := "30", protein := "40", fat := "10" })
      Day.monday FieldName.calories = true := by
  have hfilled :
      isDayFilled { calories := "0", carbs := "30", protein := "40", fat := "10" } = true :=
    (isDayFilled_iff _).mpr ⟨FieldName.carbs, 30, parseFloat_val_30, by norm_num⟩
  refine ⟨?_, isDayFilled_iff, ?_, by decide, hfilled, ?_, ?_⟩
  · intro entries today
    rw [checkAndNotify]
    rcases he : entries today with _ | e
    · simp [he]
    · by_cases hf : isDayFilled e = true <;> simp [he, hf]
  · intro entries today n h
    rw [checkAndNotify] at h
    split at h
    · cases h
    · split at h
      · cases h
      · injection h with h
        rw [← h]
  · rw [checkAndNotify]
    simp [hfilled]
  · rw [isEmptyField]
    have h0 :
        parseFloat (({ calories := "0", carbs := "30", protein := "40", fat := "10" } : DayEntry).get
          FieldName.calories) = some 0 := parseFloat_val_0
    rw [h0]
    simp

/-- Witness for C7: an entirely empty Monday entry triggers the reminder,
and the raised notification carries the Monday-specific tag. -/
theorem checkAndNotify_spec_witness :
    (Reminder.mk "Macros Reminder"
      "Don\x27t forget to fill in your macros for Monday!"
      "macro-reminder-Monday").tag =
      "macro-reminder-" ++ dayName Day.monday :=
  checkAndNotify_spec.2.2.1 (fun _ => some emptyDayEntry) Day.monday
    (Reminder.mk "Macros Reminder"
      "Don\x27t forget to fill in your macros for Monday!"
      "macro-reminder-Monday")
    (by decide)

/-- C8: loading a persisted daily-budget record discards any `calories`
key and keeps only the three macros (calories is recomputed from them);
with nothing persisted the default budget is used. -/
theorem getInitialDailyBudget_spec :
    (∀ s : StoredBudget,
      getInitialDailyBudget (some s) =
        { carbs := s.carbs, protein := s.protein, fat := s.fat }) ∧
    (∀ (s : StoredBudget) (c₁ c₂ : Option String),
      getInitialDailyBudget (some { s with calories := c₁ }) =
        getInitialDailyBudget (some { s with calories := c₂ })) ∧
    getInitialDailyBudget none = DEFAULT_DAILY_BUDGET :=
  ⟨fun _ => rfl, fun _ _ _ => rfl, rfl⟩

/-- C9: Clear All is idempotent on the in-memory state and produces the
default budget plus seven empty day entries. -/
theorem clearAll_idempotent (s : AppState) :
    handleClearAll (handleClearAll s) = handleClearAll s ∧
    handleClearAll s =
      { dailyBudget := DEFAULT_DAILY_BUDGET
      , weeklyEntries := emptyWeeklyEntries } :=
  ⟨rfl, rfl⟩

/-- C10: every state reachable from the default state through the three
mutation operations stores only empty-or-all-digit field values, and every
nonempty stored field parses to a non-negative integer. -/
theorem reachable_digitFields (s : AppState) (h : Reachable s) :
    ((∀ f : BField, digitField (s.dailyBudget.get f)) ∧
     (∀ (d : Day) (f : FieldName), digitField ((s.weeklyEntries d).get f))) ∧
    (∀ f : BField, s.dailyBudget.get f ≠ "" →
      ∃ n : ℕ, parseFloat (s.dailyBudget.get f) = some (n : ℚ)) ∧
    (∀ (d : Day) (f : FieldName), (s.weeklyEntries d).get f ≠ "" →
      ∃ n : ℕ, parseFloat ((s.weeklyEntries d).get f) = some (n : ℚ)) := by
  have hv := stateValid_reachable s h
  exact ⟨hv, fun f hf => digitField_parses _ (hv.1 f) hf,
    fun d f hf => digitField_parses _ (hv.2 d f) hf⟩

/-- Witness for C10 at the initial state: the default carbs field "270"
is an all-digit string and parses to a natural number. -/
theorem reachable_digitFields_witness :
    digitField (initState.dailyBudget.get BField.carbs) ∧
      ∃ n : ℕ, parseFloat (initState.dailyBudget.get BField.carbs) = some (n : ℚ) :=
  ⟨(reachable_digitFields initState Reachable.init).1.1 BField.carbs,
   (reachable_digitFields initState Reachable.init).2.1 BField.carbs (by decide)⟩

/-- Witness for C2 at the all-empty week: Monday sits in the carbs
emptyDays list and does not contribute. -/
theorem aggregate_spec_witness :
    (Day.monday ∈ emptyDaysField emptyWeeklyEntries FieldName.carbs ∧
      dayContributes emptyWeeklyEntries FieldName.carbs Day.monday = false) ∨
    (Day.monday ∉ emptyDaysField emptyWeeklyEntries FieldName.carbs ∧
      dayContributes emptyWeeklyEntries FieldName.carbs Day.monday = true) :=
  (aggregate_spec emptyWeeklyEntries FieldName.carbs).2.2.2.2.2 Day.monday
